import Mathlib

/-!
Verification of the calendar-to-image layout core (`image_generator.py`).

Dates are modelled as proleptic-Gregorian ordinals (day 1 = 0001-01-01),
exactly the representation behind Python `datetime.date.toordinal`.  All
arithmetic the source performs on `date` objects (comparison, difference in
days, adding days) is ordinary `Nat` arithmetic on ordinals.
-/

namespace CalImage

/-- Gregorian leap-year test, as in Python `calendar.isleap`. -/
def isLeap (y : Nat) : Bool := y % 4 == 0 && (y % 100 != 0 || y % 400 == 0)

/-- Length of month `m` (1..12) of year `y`, as in `calendar.monthrange`. -/
def daysInMonth (y m : Nat) : Nat :=
  if m = 2 then (if isLeap y then 29 else 28)
  else if m = 4 ∨ m = 6 ∨ m = 9 ∨ m = 11 then 30
  else 31

/-- Number of days of year `y` that precede month `m`. -/
def daysBeforeMonth (y m : Nat) : Nat :=
  ((List.range' 1 (m - 1)).map (daysInMonth y)).sum

/-- Length of year `y` in days. -/
def daysInYear (y : Nat) : Nat := if isLeap y then 366 else 365

/-- Number of days before January 1 of year `y` (the sum is grouped so that
the `Nat` subtraction never truncates; `(y-1)/100 ≤ (y-1)/4`). -/
def daysBeforeYear (y : Nat) : Nat :=
  365 * (y - 1) + (y - 1) / 4 + (y - 1) / 400 - (y - 1) / 100

/-- Ordinal of the calendar date `(y, m, d)`; Python `date(y, m, d).toordinal()`. -/
def toOrd (y m d : Nat) : Nat := daysBeforeYear y + daysBeforeMonth y m + d

/-- Python `date.weekday()`: Monday = 0 .. Sunday = 6 (ordinal 1 is a Monday). -/
def weekday (o : Nat) : Nat := (o + 6) % 7

/- ------------------------------------------------------------------
Month grid builder: the embedding of
`calendar.Calendar(firstweekday=6).monthdatescalendar(year, month)`
(`image_generator.py`, lines 210-212).  The iterator starts at the Sunday
on or before the first of the month and ends at the Saturday on or after
the last of the month, emitting the run in chunks of 7 consecutive dates.
------------------------------------------------------------------ -/

/-- Ordinal of the first day of the month. -/
def firstOfMonthOrd (y m : Nat) : Nat := toOrd y m 1

/-- Ordinal of the last day of the month. -/
def lastOfMonthOrd (y m : Nat) : Nat := toOrd y m (daysInMonth y m)

/-- Sunday on or before the first of the month: step back
`(weekday + 1) % 7` days (Sunday has `weekday = 6`). -/
def gridAnchor (y m : Nat) : Nat :=
  firstOfMonthOrd y m - (weekday (firstOfMonthOrd y m) + 1) % 7

/-- Saturday on or after the last of the month: step forward
`(12 - weekday) % 7` days (Saturday has `weekday = 5`). -/
def gridEnd (y m : Nat) : Nat :=
  lastOfMonthOrd y m + (12 - weekday (lastOfMonthOrd y m)) % 7

/-- Number of week rows of the month grid. -/
def numWeeks (y m : Nat) : Nat := (gridEnd y m + 1 - gridAnchor y m) / 7

/-- The month grid: one list of 7 consecutive date ordinals per week row,
Sunday first, exactly the rows of `cal.monthdatescalendar(year, month)`. -/
def monthWeeks (y m : Nat) : List (List Nat) :=
  (List.range (numWeeks y m)).map
    (fun w => (List.range 7).map (fun d => gridAnchor y m + 7 * w + d))

/- ------------------------------------------------------------------
Event normalization: `_to_date` and `_prepare_events`
(`image_generator.py`, lines 20-37 and 107-149).
------------------------------------------------------------------ -/

/-- The dynamically-typed value found in an event's start/end field.
`dateObj`/`datetimeObj` carry the ordinal of the calendar date (a datetime
also carries its time of day, which `.date()` discards); `strDate` and
`strDatetime` are ISO strings the standard library parses successfully,
carried here by their parsed result; `strBad` is an unparseable string and
`badType` any other Python value. -/
inductive DateInput where
  | dateObj (ord : Nat)
  | datetimeObj (ord : Nat) (secondsOfDay : Nat)
  | strDate (ord : Nat)
  | strDatetime (ord : Nat) (secondsOfDay : Nat)
  | strBad (s : String)
  | badType
deriving DecidableEq

/-- Model of `_to_date`: reduce a start/end field to a calendar date ordinal,
or raise (modelled as `Except.error`).  A missing field (`None`) hits the
final `TypeError` branch, so we fold `Option.none` into the same function. -/
def to_date : Option DateInput → Except String Nat
  | some (.dateObj o) => .ok o
  | some (.datetimeObj o _) => .ok o
  | some (.strDate o) => .ok o
  | some (.strDatetime o _) => .ok o
  | some (.strBad s) => .error ("Unsupported date string format: " ++ s)
  | some .badType => .error "Unsupported date/datetime type"
  | none => .error "Unsupported date/datetime type"

/-- A raw event dict as consumed by `_prepare_events`: the fields it reads. -/
structure RawEvent where
  summary : Option String
  start : Option DateInput
  «end» : Option DateInput
  color_id : Option String
deriving DecidableEq

/-- A normalized event produced by `_prepare_events`. -/
structure PreparedEvent where
  summary : String
  start_date : Nat
  end_date : Nat
  color_id : Option String
deriving DecidableEq

/-- The per-event body of the `_prepare_events` loop: parse, apply the
end-exclusivity heuristic, clip to the month, filter by month overlap. -/
def prepare_step (first_of_month last_of_month : Nat)
    (prepared : List PreparedEvent) (ev : RawEvent) : List PreparedEvent :=
  match to_date ev.start, to_date ev.«end» with
  | .ok s, .ok e =>
    let e_inclusive := if s < e then e - 1 else e
    let ev_start := max s first_of_month
    let ev_end := min e_inclusive last_of_month
    if ev_start ≤ last_of_month ∧ first_of_month ≤ ev_end then
      prepared ++ [{ summary := ev.summary.getD "(No title)",
                     start_date := ev_start,
                     end_date := ev_end,
                     color_id := ev.color_id }]
    else prepared
  | _, _ => prepared

/-- The first day of the month following `(year, month)`, with the
December-to-January rollover of `_prepare_events`. -/
def first_next_month (year month : Nat) : Nat :=
  if month = 12 then toOrd (year + 1) 1 1 else toOrd year (month + 1) 1

/-- The inclusive last day of the month:
`first_next_month - timedelta(days=1)`. -/
def last_of_month (year month : Nat) : Nat := first_next_month year month - 1

/-- Model of `_prepare_events(events, year, month)`. -/
def prepare_events (events : List RawEvent) (year month : Nat) : List PreparedEvent :=
  events.foldl (prepare_step (toOrd year month 1) (last_of_month year month)) []

/- ------------------------------------------------------------------
Segment building and slot allocation
(`image_generator.py`, lines 220-269).
------------------------------------------------------------------ -/

/-- One entry of `week_segments[wi]`. -/
structure Segment where
  start_col : Nat
  end_col : Nat
  span : Nat
  slot : Nat
  summary : String
  color_id : Option String
deriving DecidableEq

/-- The inner scan of `find_slot`: does some segment already placed in this
slot have a column range overlapping `[start_col, end_col]`? -/
def slot_taken (segments_for_week : List Segment) (slot start_col end_col : Nat) : Bool :=
  segments_for_week.any (fun seg =>
    seg.slot == slot && !(decide (end_col < seg.start_col) || decide (start_col > seg.end_col)))

/-- Python `find_slot`: the first slot index in `0 .. max_slots - 1` whose
already-placed segments do not overlap the new column range; `none` when all
are taken. -/
def find_slot (segments_for_week : List Segment) (start_col end_col : Nat)
    (max_slots : Nat) : Option Nat :=
  (List.range max_slots).find? (fun slot => !slot_taken segments_for_week slot start_col end_col)

/-- The body of the per-week placement loop for one event and one week row:
compute the overlap of the event with the week, derive the column range, and
append a segment when `find_slot` yields one. -/
def place_event_in_week (segs : List Segment) (week : List Nat) (ev : PreparedEvent) :
    List Segment :=
  let week_start := week.headD 0
  let week_end := week.getLastD 0
  let seg_start := max ev.start_date week_start
  let seg_end := min ev.end_date week_end
  if seg_start ≤ seg_end then
    let start_col := seg_start - week_start
    let span := seg_end - seg_start + 1
    let end_col := start_col + span - 1
    match find_slot segs start_col end_col 3 with
    | none => segs
    | some slot =>
      segs ++ [{ start_col := start_col, end_col := end_col, span := span,
                 slot := slot, summary := ev.summary, color_id := ev.color_id }]
  else segs

/-- The nested loop of `generate_month_image` that fills `week_segments`:
outer loop over prepared events, inner loop over week rows, each week row
keeping its own independent slot state. -/
def build_week_segments (month_weeks : List (List Nat))
    (prepared_events : List PreparedEvent) : List (List Segment) :=
  prepared_events.foldl
    (fun week_segments ev =>
      (week_segments.zip month_weeks).map (fun p => place_event_in_week p.1 p.2 ev))
    (month_weeks.map (fun _ => []))

/-- Title truncation before rendering (`image_generator.py`, lines 343-346):
Python slicing counts characters, as does `String.take`. -/
def render_title (summary : String) : String :=
  let max_chars := 20
  if summary.length > max_chars then summary.take (max_chars - 3) ++ "..." else summary

/-- Disjointness of same-slot column ranges, in the spec's orientation:
ranges `[a,b]`, `[c,d]` overlap iff `not (b < c or a > d)`. -/
def SlotDisjoint (s1 s2 : Segment) : Prop :=
  s1.slot = s2.slot → (s1.end_col < s2.start_col ∨ s1.start_col > s2.end_col)

/-- The invariant the placement loop maintains on each week row's state. -/
def SegWeekInv (segs : List Segment) : Prop :=
  (∀ s ∈ segs, s.slot < 3) ∧ segs.Pairwise SlotDisjoint

/-- Four single-day events on October 15, 2025, in input order. -/
def sameDayEvents : List PreparedEvent :=
  [{ summary := "Event A", start_date := toOrd 2025 10 15,
     end_date := toOrd 2025 10 15, color_id := none },
   { summary := "Event B", start_date := toOrd 2025 10 15,
     end_date := toOrd 2025 10 15, color_id := none },
   { summary := "Event C", start_date := toOrd 2025 10 15,
     end_date := toOrd 2025 10 15, color_id := none },
   { summary := "Event D", start_date := toOrd 2025 10 15,
     end_date := toOrd 2025 10 15, color_id := none }]

/-- Four single-day events on October 13-16, 2025 (the same week row). -/
def spreadDayEvents : List PreparedEvent :=
  [{ summary := "Event A", start_date := toOrd 2025 10 13,
     end_date := toOrd 2025 10 13, color_id := none },
   { summary := "Event B", start_date := toOrd 2025 10 14,
     end_date := toOrd 2025 10 14, color_id := none },
   { summary := "Event C", start_date := toOrd 2025 10 15,
     end_date := toOrd 2025 10 15, color_id := none },
   { summary := "Event D", start_date := toOrd 2025 10 16,
     end_date := toOrd 2025 10 16, color_id := none }]

lemma daysInMonth_ge (y m : Nat) : 28 ≤ daysInMonth y m := by
  unfold daysInMonth
  split
  · split <;> omega
  · split <;> omega

lemma daysInMonth_le (y m : Nat) : daysInMonth y m ≤ 31 := by
  unfold daysInMonth
  split
  · split <;> omega
  · split <;> omega

lemma daysBeforeMonth_succ (y m : Nat) (hm : 1 ≤ m) :
    daysBeforeMonth y (m + 1) = daysBeforeMonth y m + daysInMonth y m := by
  unfold daysBeforeMonth
  have h1 : m + 1 - 1 = (m - 1) + 1 := by omega
  rw [h1, List.range'_concat, List.map_append, List.sum_append]
  have h2 : 1 + (m - 1) = m := by omega
  simp [h2]

lemma daysBeforeYear_succ (y : Nat) (hy : 1 ≤ y) :
    daysBeforeYear (y + 1) = daysBeforeYear y + daysInYear y := by
  have hsub : y + 1 - 1 = (y - 1) + 1 := by omega
  have h4 : ((y - 1) + 1) / 4 = (y - 1) / 4 + if 4 ∣ (y - 1) + 1 then 1 else 0 :=
    Nat.succ_div (y - 1) 4
  have h100 : ((y - 1) + 1) / 100 = (y - 1) / 100 + if 100 ∣ (y - 1) + 1 then 1 else 0 :=
    Nat.succ_div (y - 1) 100
  have h400 : ((y - 1) + 1) / 400 = (y - 1) / 400 + if 400 ∣ (y - 1) + 1 then 1 else 0 :=
    Nat.succ_div (y - 1) 400
  have hy1 : (y - 1) + 1 = y := by omega
  rw [hy1] at h4 h100 h400
  have hd1 : (y - 1) / 100 ≤ (y - 1) / 4 :=
    Nat.div_le_div_left (by omega) (by omega)
  unfold daysBeforeYear daysInYear
  rw [hsub, hy1, h4, h100, h400]
  by_cases c4 : 4 ∣ y
  · by_cases c100 : 100 ∣ y
    · by_cases c400 : 400 ∣ y
      · have e4 : y % 4 = 0 := Nat.dvd_iff_mod_eq_zero.mp c4
        have e400 : y % 400 = 0 := Nat.dvd_iff_mod_eq_zero.mp c400
        have hleap : isLeap y = true := by simp [isLeap, e4, e400]
        rw [if_pos c4, if_pos c100, if_pos c400, hleap, if_pos rfl]
        omega
      · have e4 : y % 4 = 0 := Nat.dvd_iff_mod_eq_zero.mp c4
        have e100 : y % 100 = 0 := Nat.dvd_iff_mod_eq_zero.mp c100
        have e400 : y % 400 ≠ 0 := fun h => c400 (Nat.dvd_iff_mod_eq_zero.mpr h)
        have hleap : isLeap y = false := by simp [isLeap, e4, e100, e400]
        rw [if_pos c4, if_pos c100, if_neg c400, hleap]
        simp only [Bool.false_eq_true, if_false]
        omega
    · have c400 : ¬ 400 ∣ y := fun h => c100 (dvd_trans (by norm_num) h)
      have e4 : y % 4 = 0 := Nat.dvd_iff_mod_eq_zero.mp c4
      have e100 : y % 100 ≠ 0 := fun h => c100 (Nat.dvd_iff_mod_eq_zero.mpr h)
      have hleap : isLeap y = true := by simp [isLeap, e4, e100]
      rw [if_pos c4, if_neg c100, if_neg c400, hleap, if_pos rfl]
      omega
  · have c100 : ¬ 100 ∣ y := fun h => c4 (dvd_trans (by norm_num) h)
    have c400 : ¬ 400 ∣ y := fun h => c4 (dvd_trans (by norm_num) h)
    have e4 : y % 4 ≠ 0 := fun h => c4 (Nat.dvd_iff_mod_eq_zero.mpr h)
    have hleap : isLeap y = false := by simp [isLeap, e4]
    rw [if_neg c4, if_neg c100, if_neg c400, hleap]
    simp only [Bool.false_eq_true, if_false]
    omega

lemma daysBeforeMonth_13 (y : Nat) : daysBeforeMonth y 13 = daysInYear y := by
  unfold daysBeforeMonth daysInMonth daysInYear
  norm_num [List.range']
  cases isLeap y <;> simp

lemma toOrd_day (y m d : Nat) : toOrd y m d = toOrd y m 1 + d - 1 := by
  unfold toOrd
  omega

/-- Rolling over the end of month `m` lands on day 1 of the next month
(January of the next year when `m = 12`). -/
lemma toOrd_next_month (y m : Nat) (hy : 1 ≤ y) (hm1 : 1 ≤ m) (hm2 : m ≤ 12) :
    (if m = 12 then toOrd (y + 1) 1 1 else toOrd y (m + 1) 1) =
      toOrd y m (daysInMonth y m) + 1 := by
  by_cases h12 : m = 12
  · subst h12
    rw [if_pos rfl]
    unfold toOrd
    have h13 : daysBeforeMonth y 13 = daysBeforeMonth y 12 + daysInMonth y 12 :=
      daysBeforeMonth_succ y 12 (by omega)
    have hy13 : daysBeforeMonth y 13 = daysInYear y := daysBeforeMonth_13 y
    have hys : daysBeforeYear (y + 1) = daysBeforeYear y + daysInYear y :=
      daysBeforeYear_succ y hy
    have hb1 : daysBeforeMonth (y + 1) 1 = 0 := by
      unfold daysBeforeMonth
      simp [List.range']
    have hb2 : daysBeforeMonth y 1 = 0 := by
      unfold daysBeforeMonth
      simp [List.range']
    rw [hys, hb1]
    omega
  · rw [if_neg h12]
    unfold toOrd
    have hsucc : daysBeforeMonth y (m + 1) = daysBeforeMonth y m + daysInMonth y m :=
      daysBeforeMonth_succ y m hm1
    omega

lemma weekday_firstOfMonth_mod (y m : Nat) :
    (weekday (firstOfMonthOrd y m) + 1) % 7 = firstOfMonthOrd y m % 7 := by
  unfold weekday
  omega

lemma lastOfMonthOrd_eq (y m : Nat) :
    lastOfMonthOrd y m = firstOfMonthOrd y m + daysInMonth y m - 1 := by
  unfold lastOfMonthOrd firstOfMonthOrd toOrd
  omega

lemma firstOfMonthOrd_pos (y m : Nat) : 1 ≤ firstOfMonthOrd y m := by
  unfold firstOfMonthOrd toOrd
  omega

/-- Structure of the grid bounds: the anchor is the Sunday at or before the
first of the month, the end is the Saturday at or after the last, and the
whole span is a positive multiple of 7. -/
lemma grid_span (y m : Nat) :
    gridAnchor y m ≤ firstOfMonthOrd y m ∧
    firstOfMonthOrd y m ≤ gridAnchor y m + 6 ∧
    lastOfMonthOrd y m ≤ gridEnd y m ∧
    gridEnd y m ≤ lastOfMonthOrd y m + 6 ∧
    gridEnd y m + 1 - gridAnchor y m = 7 * numWeeks y m ∧
    weekday (gridAnchor y m) = 6 ∧
    gridEnd y m + 1 = gridAnchor y m + 7 * numWeeks y m := by
  have hf : 1 ≤ firstOfMonthOrd y m := firstOfMonthOrd_pos y m
  have hL : lastOfMonthOrd y m = firstOfMonthOrd y m + daysInMonth y m - 1 :=
    lastOfMonthOrd_eq y m
  have hd1 : 28 ≤ daysInMonth y m := daysInMonth_ge y m
  have hd2 : daysInMonth y m ≤ 31 := daysInMonth_le y m
  have ha : gridAnchor y m =
      firstOfMonthOrd y m - ((firstOfMonthOrd y m + 6) % 7 + 1) % 7 := rfl
  have he : gridEnd y m =
      lastOfMonthOrd y m + (12 - (lastOfMonthOrd y m + 6) % 7) % 7 := rfl
  have hN : numWeeks y m = (gridEnd y m + 1 - gridAnchor y m) / 7 := rfl
  have hw : weekday (gridAnchor y m) = (gridAnchor y m + 6) % 7 := rfl
  rw [hw]
  omega

lemma flatten_grid_rows (a : Nat) :
    ∀ n : Nat,
      ((List.range n).map (fun w => (List.range 7).map (fun d => a + 7 * w + d))).flatten =
        List.range' a (7 * n)
  | 0 => by simp
  | n + 1 => by
    rw [List.range_succ n, List.map_append, List.flatten_append, flatten_grid_rows a n]
    have hrow : (List.range 7).map (fun d => a + 7 * n + d) = List.range' (a + 7 * n) 7 := by
      rw [List.range'_eq_map_range]
    simp only [List.map_cons, List.map_nil, List.flatten_cons, List.flatten_nil,
      List.append_nil, hrow]
    rw [List.range'_append_1]
    congr 1
    omega

lemma monthWeeks_flatten (y m : Nat) :
    (monthWeeks y m).flatten = List.range' (gridAnchor y m) (7 * numWeeks y m) :=
  flatten_grid_rows (gridAnchor y m) (numWeeks y m)

/- ------------------------------------------------------------------
Facts about the slot allocator.
------------------------------------------------------------------ -/

lemma slot_taken_eq_false_iff (segs : List Segment) (slot sc ec : Nat) :
    slot_taken segs slot sc ec = false ↔
      ∀ seg ∈ segs, seg.slot = slot → (ec < seg.start_col ∨ sc > seg.end_col) := by
  unfold slot_taken
  rw [List.any_eq_false]
  constructor
  · intro h seg hseg hslot
    have := h seg hseg
    simp [hslot] at this
    omega
  · intro h seg hseg
    by_cases hslot : seg.slot = slot
    · have := h seg hseg hslot
      simp [hslot]
      omega
    · simp [hslot]

lemma slot_taken_eq_true_iff (segs : List Segment) (slot sc ec : Nat) :
    slot_taken segs slot sc ec = true ↔
      ∃ seg ∈ segs, seg.slot = slot ∧ ¬(ec < seg.start_col ∨ sc > seg.end_col) := by
  unfold slot_taken
  rw [List.any_eq_true]
  constructor
  · rintro ⟨seg, hseg, hcond⟩
    refine ⟨seg, hseg, ?_, ?_⟩
    · by_contra hne
      simp [hne] at hcond
    · by_cases hslot : seg.slot = slot
      · simp [hslot] at hcond
        omega
      · simp [hslot] at hcond
  · rintro ⟨seg, hseg, hslot, hcond⟩
    refine ⟨seg, hseg, ?_⟩
    simp [hslot]
    omega

/-- `find_slot` is first-fit: it returns `slot` exactly when `slot` is in
budget and free, and every smaller slot index is taken. -/
lemma find_slot_eq_some_iff (segs : List Segment) (sc ec n slot : Nat) :
    find_slot segs sc ec n = some slot ↔
      slot < n ∧ slot_taken segs slot sc ec = false ∧
        ∀ t, t < slot → slot_taken segs t sc ec = true := by
  unfold find_slot
  rw [List.find?_range_eq_some]
  constructor
  · rintro ⟨h1, h2, h3⟩
    refine ⟨List.mem_range.mp h2, by simpa using h1, fun t ht => ?_⟩
    have := h3 t ht
    simpa using this
  · rintro ⟨h1, h2, h3⟩
    exact ⟨by simp [h2], List.mem_range.mpr h1, fun j hj => by simp [h3 j hj]⟩

lemma find_slot_eq_none_iff (segs : List Segment) (sc ec n : Nat) :
    find_slot segs sc ec n = none ↔ ∀ t, t < n → slot_taken segs t sc ec = true := by
  unfold find_slot
  rw [List.find?_range_eq_none]
  simp

lemma segWeekInv_nil : SegWeekInv [] := ⟨by simp, List.Pairwise.nil⟩

lemma append_segment_inv (segs : List Segment) (sc ec sp slot : Nat) (title : String)
    (cid : Option String) (hfs : find_slot segs sc ec 3 = some slot) (h : SegWeekInv segs) :
    SegWeekInv (segs ++ [{ start_col := sc, end_col := ec, span := sp,
                           slot := slot, summary := title, color_id := cid }]) := by
  obtain ⟨hlt, hfree, _⟩ := (find_slot_eq_some_iff _ _ _ _ _).mp hfs
  have hfree' := (slot_taken_eq_false_iff _ _ _ _).mp hfree
  constructor
  · intro s hs
    rcases List.mem_append.mp hs with hs | hs
    · exact h.1 s hs
    · simp at hs
      subst hs
      exact hlt
  · rw [List.pairwise_append]
    refine ⟨h.2, List.pairwise_singleton _ _, ?_⟩
    intro s1 hs1 s2 hs2
    simp at hs2
    subst hs2
    intro hslot
    show s1.end_col < sc ∨ s1.start_col > ec
    have hd := hfree' s1 hs1 hslot
    omega

lemma place_event_in_week_inv (segs : List Segment) (week : List Nat)
    (ev : PreparedEvent) (h : SegWeekInv segs) :
    SegWeekInv (place_event_in_week segs week ev) := by
  simp only [place_event_in_week]
  split
  · split
    · exact h
    · rename_i hfs
      exact append_segment_inv segs _ _ _ _ _ _ hfs h
  · exact h

lemma build_week_segments_inv (weeks : List (List Nat)) (evs : List PreparedEvent) :
    ∀ segs ∈ build_week_segments weeks evs, SegWeekInv segs := by
  unfold build_week_segments
  suffices h : ∀ (init : List (List Segment)), (∀ s ∈ init, SegWeekInv s) →
      ∀ s ∈ evs.foldl
        (fun week_segments ev =>
          (week_segments.zip weeks).map (fun p => place_event_in_week p.1 p.2 ev)) init,
      SegWeekInv s by
    intro segs hsegs
    refine h _ ?_ segs hsegs
    intro s hs
    rcases List.mem_map.mp hs with ⟨_, _, rfl⟩
    exact segWeekInv_nil
  induction evs with
  | nil => intro init hinit s hs; exact hinit s hs
  | cons ev evs ih =>
    intro init hinit s hs
    refine ih _ ?_ s hs
    intro t ht
    rcases List.mem_map.mp ht with ⟨p, hp, rfl⟩
    exact place_event_in_week_inv _ _ _ (hinit p.1 (List.of_mem_zip hp).1)

lemma length_le_of_nodup_lt (l : List Nat) (n : Nat) (hd : l.Nodup)
    (hb : ∀ x ∈ l, x < n) : l.length ≤ n := by
  classical
  have h1 : l.toFinset.card = l.length := List.toFinset_card_of_nodup hd
  have h2 : l.toFinset ⊆ Finset.range n := by
    intro x hx
    exact Finset.mem_range.mpr (hb x (List.mem_toFinset.mp hx))
  have h3 := Finset.card_le_card h2
  rw [h1, Finset.card_range] at h3
  exact h3

/-- Any invariant-satisfying week row shows at most 3 segments over any
single day column. -/
lemma column_cover_le_three (segs : List Segment) (h : SegWeekInv segs) (col : Nat) :
    (segs.filter (fun s => decide (s.start_col ≤ col) && decide (col ≤ s.end_col))).length ≤ 3 := by
  set l := segs.filter (fun s => decide (s.start_col ≤ col) && decide (col ≤ s.end_col)) with hl
  have hpair : l.Pairwise SlotDisjoint := h.2.sublist (List.filter_sublist _)
  have hcov : ∀ s ∈ l, s.start_col ≤ col ∧ col ≤ s.end_col := by
    intro s hs
    have := List.of_mem_filter hs
    simp at this
    exact this
  have hne : l.Pairwise (fun s1 s2 => s1.slot ≠ s2.slot) := by
    refine hpair.imp_of_mem ?_
    intro s1 s2 hs1 hs2 hdisj heq
    have h1 := hcov s1 hs1
    have h2 := hcov s2 hs2
    have := hdisj heq
    omega
  have hnodup : (l.map (fun s => s.slot)).Nodup := by
    rw [List.Nodup, List.pairwise_map]
    exact hne
  have hbound : ∀ x ∈ l.map (fun s => s.slot), x < 3 := by
    intro x hx
    rcases List.mem_map.mp hx with ⟨s, hs, rfl⟩
    exact h.1 s (List.mem_of_mem_filter hs)
  have := length_le_of_nodup_lt _ 3 hnodup hbound
  rwa [List.length_map] at this

/- ------------------------------------------------------------------
Facts about `_prepare_events`.
------------------------------------------------------------------ -/

lemma prepare_step_mem (fm lm : Nat) (acc : List PreparedEvent) (ev : RawEvent)
    (p : PreparedEvent) (hp : p ∈ prepare_step fm lm acc ev) :
    p ∈ acc ∨ ∃ s e, to_date ev.start = .ok s ∧ to_date ev.«end» = .ok e ∧
      p.start_date = max s fm ∧ p.end_date = min (if s < e then e - 1 else e) lm ∧
      p.start_date ≤ lm ∧ fm ≤ p.end_date := by
  rcases hs : to_date ev.start with msg | s <;>
    rcases he : to_date ev.«end» with msg2 | e <;>
      unfold prepare_step at hp <;> rw [hs, he] at hp <;> simp only [] at hp
  · exact Or.inl hp
  · exact Or.inl hp
  · exact Or.inl hp
  · by_cases hc : max s fm ≤ lm ∧ fm ≤ min (if s < e then e - 1 else e) lm
    · rw [if_pos hc] at hp
      rcases List.mem_append.mp hp with hp | hp
      · exact Or.inl hp
      · simp at hp
        subst hp
        exact Or.inr ⟨s, e, rfl, rfl, rfl, rfl, hc.1, hc.2⟩
    · rw [if_neg hc] at hp
      exact Or.inl hp

lemma prepare_events_mem (events : List RawEvent) (y m : Nat) (p : PreparedEvent)
    (hp : p ∈ prepare_events events y m) :
    ∃ ev ∈ events, ∃ s e, to_date ev.start = .ok s ∧ to_date ev.«end» = .ok e ∧
      p.start_date = max s (toOrd y m 1) ∧
      p.end_date = min (if s < e then e - 1 else e) (last_of_month y m) ∧
      p.start_date ≤ last_of_month y m ∧ toOrd y m 1 ≤ p.end_date := by
  unfold prepare_events at hp
  suffices h : ∀ (l : List RawEvent) (acc : List PreparedEvent),
      p ∈ l.foldl (prepare_step (toOrd y m 1) (last_of_month y m)) acc →
      p ∈ acc ∨ ∃ ev ∈ l, ∃ s e, to_date ev.start = .ok s ∧ to_date ev.«end» = .ok e ∧
        p.start_date = max s (toOrd y m 1) ∧
        p.end_date = min (if s < e then e - 1 else e) (last_of_month y m) ∧
        p.start_date ≤ last_of_month y m ∧ toOrd y m 1 ≤ p.end_date by
    rcases h events [] hp with hnil | ⟨ev, hev, rest⟩
    · simp at hnil
    · exact ⟨ev, hev, rest⟩
  intro l
  induction l with
  | nil => intro acc hacc; exact Or.inl hacc
  | cons ev l ih =>
    intro acc hacc
    rw [List.foldl_cons] at hacc
    rcases ih _ hacc with hstep | ⟨ev2, hev2, rest⟩
    · rcases prepare_step_mem _ _ _ _ _ hstep with hmem | ⟨s, e, rest⟩
      · exact Or.inl hmem
      · exact Or.inr ⟨ev, by simp, s, e, rest⟩
    · exact Or.inr ⟨ev2, by simp [hev2], rest⟩

lemma prepare_step_error (fm lm : Nat) (acc : List PreparedEvent) (ev : RawEvent)
    (h : (∃ msg, to_date ev.start = .error msg) ∨ ∃ msg, to_date ev.«end» = .error msg) :
    prepare_step fm lm acc ev = acc := by
  unfold prepare_step
  rcases h with ⟨msg, hmsg⟩ | ⟨msg, hmsg⟩
  · rw [hmsg]
  · rw [hmsg]
    rcases hs : to_date ev.start with msg2 | s <;> rfl

/- ------------------------------------------------------------------
Facts about inverted events (start after end) in the placement loop.
------------------------------------------------------------------ -/

lemma place_event_in_week_inverted (segs : List Segment) (week : List Nat)
    (ev : PreparedEvent) (h : ev.end_date < ev.start_date) :
    place_event_in_week segs week ev = segs := by
  simp only [place_event_in_week]
  split
  · rename_i hc
    exfalso
    have h1 : ev.start_date ≤ max ev.start_date (week.headD 0) := Nat.le_max_left _ _
    have h2 : min ev.end_date (week.getLastD 0) ≤ ev.end_date := Nat.min_le_left _ _
    omega
  · rfl

lemma build_state_length (weeks : List (List Nat)) (evs : List PreparedEvent) :
    ∀ init : List (List Segment), init.length = weeks.length →
      (evs.foldl
        (fun week_segments ev =>
          (week_segments.zip weeks).map (fun p => place_event_in_week p.1 p.2 ev))
        init).length = weeks.length := by
  induction evs with
  | nil => intro init hinit; simpa using hinit
  | cons ev evs ih =>
    intro init hinit
    rw [List.foldl_cons]
    refine ih _ ?_
    rw [List.length_map, List.length_zip, hinit]
    omega

lemma build_week_segments_skip_inverted (weeks : List (List Nat))
    (pre post : List PreparedEvent) (ev : PreparedEvent)
    (h : ev.end_date < ev.start_date) :
    build_week_segments weeks (pre ++ ev :: post) =
      build_week_segments weeks (pre ++ post) := by
  unfold build_week_segments
  rw [List.foldl_append, List.foldl_append, List.foldl_cons]
  congr 1
  have hlen : (pre.foldl
      (fun week_segments ev =>
        (week_segments.zip weeks).map (fun p => place_event_in_week p.1 p.2 ev))
      (weeks.map (fun _ => []))).length = weeks.length :=
    build_state_length weeks pre _ (by simp)
  calc ((pre.foldl
          (fun week_segments ev =>
            (week_segments.zip weeks).map (fun p => place_event_in_week p.1 p.2 ev))
          (weeks.map (fun _ => []))).zip weeks).map
        (fun p => place_event_in_week p.1 p.2 ev)
      = ((pre.foldl
          (fun week_segments ev =>
            (week_segments.zip weeks).map (fun p => place_event_in_week p.1 p.2 ev))
          (weeks.map (fun _ => []))).zip weeks).map Prod.fst := by
        refine List.map_congr_left ?_
        intro p _
        exact place_event_in_week_inverted p.1 p.2 ev h
    _ = pre.foldl
          (fun week_segments ev =>
            (week_segments.zip weeks).map (fun p => place_event_in_week p.1 p.2 ev))
          (weeks.map (fun _ => [])) := List.map_fst_zip _ _ (le_of_eq hlen)

/- ------------------------------------------------------------------
Claim theorems.
------------------------------------------------------------------ -/

/-- C1: in any week row produced by the slot allocator, two distinct
segments assigned the same slot never have overlapping inclusive column
ranges, where ranges `[a,b]` and `[c,d]` overlap iff
`not (b < c or a > d)`. -/
theorem c1_same_slot_ranges_disjoint (weeks : List (List Nat))
    (evs : List PreparedEvent) (segs : List Segment)
    (hseg : segs ∈ build_week_segments weeks evs) :
    segs.Pairwise (fun s1 s2 => s1.slot = s2.slot →
      (s1.end_col < s2.start_col ∨ s1.start_col > s2.end_col)) :=
  (build_week_segments_inv weeks evs segs hseg).2

/-- C1 witness: the week row of October 15, 2025 after placing four
same-day events carries three segments, pairwise slot-disjoint. -/
theorem c1_witness :
    ([{ start_col := 3, end_col := 3, span := 1, slot := 0,
        summary := "Event A", color_id := none },
      { start_col := 3, end_col := 3, span := 1, slot := 1,
        summary := "Event B", color_id := none },
      { start_col := 3, end_col := 3, span := 1, slot := 2,
        summary := "Event C", color_id := none }] : List Segment).Pairwise
      (fun s1 s2 => s1.slot = s2.slot →
        (s1.end_col < s2.start_col ∨ s1.start_col > s2.end_col)) :=
  c1_same_slot_ranges_disjoint (monthWeeks 2025 10) sameDayEvents _ (by decide)

/-- C2: `find_slot` is first-fit over slots `0..2` — it returns `slot` iff
`slot` is in budget, no already-placed segment in that slot overlaps the new
column range, and every smaller slot has an overlapping occupant; it returns
`none` iff all three slots have overlapping occupants, in which case the
placement loop drops the segment and leaves the week state unchanged.  In the
four-same-day-event scenario the first three events get slots 0, 1, 2 and the
fourth produces no segment. -/
theorem c2_first_fit_slot_assignment :
    (∀ (segs : List Segment) (sc ec slot : Nat),
      find_slot segs sc ec 3 = some slot ↔
        slot < 3 ∧ (∀ seg ∈ segs, seg.slot = slot → (ec < seg.start_col ∨ sc > seg.end_col)) ∧
          ∀ t, t < slot →
            ∃ seg ∈ segs, seg.slot = t ∧ ¬(ec < seg.start_col ∨ sc > seg.end_col)) ∧
    (∀ (segs : List Segment) (sc ec : Nat),
      find_slot segs sc ec 3 = none ↔
        ∀ t, t < 3 →
          ∃ seg ∈ segs, seg.slot = t ∧ ¬(ec < seg.start_col ∨ sc > seg.end_col)) ∧
    (∀ (segs : List Segment) (week : List Nat) (ev : PreparedEvent),
      find_slot segs (max ev.start_date (week.headD 0) - week.headD 0)
          (max ev.start_date (week.headD 0) - week.headD 0 +
            (min ev.end_date (week.getLastD 0) - max ev.start_date (week.headD 0) + 1) - 1)
          3 = none →
      place_event_in_week segs week ev = segs) ∧
    (build_week_segments (monthWeeks 2025 10) sameDayEvents).map
        (fun segs => segs.map (fun s => (s.summary, s.slot, s.start_col, s.end_col))) =
      [[], [], [("Event A", 0, 3, 3), ("Event B", 1, 3, 3), ("Event C", 2, 3, 3)],
       [], []] := by
  refine ⟨?_, ?_, ?_, by decide⟩
  · intro segs sc ec slot
    rw [find_slot_eq_some_iff]
    constructor
    · rintro ⟨h1, h2, h3⟩
      refine ⟨h1, (slot_taken_eq_false_iff _ _ _ _).mp h2, fun t ht => ?_⟩
      exact (slot_taken_eq_true_iff _ _ _ _).mp (h3 t ht)
    · rintro ⟨h1, h2, h3⟩
      refine ⟨h1, (slot_taken_eq_false_iff _ _ _ _).mpr h2, fun t ht => ?_⟩
      exact (slot_taken_eq_true_iff _ _ _ _).mpr (h3 t ht)
  · intro segs sc ec
    rw [find_slot_eq_none_iff]
    constructor
    · intro h t ht
      exact (slot_taken_eq_true_iff _ _ _ _).mp (h t ht)
    · intro h t ht
      exact (slot_taken_eq_true_iff _ _ _ _).mpr (h t ht)
  · intro segs week ev hnone
    simp only [place_event_in_week]
    split
    · split
      · rfl
      · rename_i hm
        rw [hnone] at hm
        cases hm
    · rfl

/-- C2 witness: on an empty week state, slot 0 is free and assigned. -/
theorem c2_witness : find_slot [] 0 0 3 = some 0 :=
  (c2_first_fit_slot_assignment.1 [] 0 0 0).mpr
    ⟨by decide, fun seg hseg _ => absurd hseg (List.not_mem_nil seg),
     fun t ht => absurd ht (by omega)⟩

/-- C6 counterexample: four single-day events on four different days of the
same week row all get slot 0, so that week row holds 4 segments — more than
`maxSlotsPerWeek = 3`. -/
theorem c6_counterexample :
    3 < ((build_week_segments (monthWeeks 2025 10) spreadDayEvents).getD 2 []).length := by
  decide

/-- C6 (amended): the per-week bound that actually holds is per day column —
in any week row, at most 3 segments cover any single column. -/
theorem c6_column_cover_le_max_slots (weeks : List (List Nat))
    (evs : List PreparedEvent) (segs : List Segment)
    (hseg : segs ∈ build_week_segments weeks evs) (col : Nat) :
    (segs.filter (fun s => decide (s.start_col ≤ col) && decide (col ≤ s.end_col))).length ≤ 3 :=
  column_cover_le_three segs (build_week_segments_inv weeks evs segs hseg) col

/-- C6 witness: column 1 of the October 13-16 week row is covered by at most
3 of its 4 segments. -/
theorem c6_witness :
    (([{ start_col := 1, end_col := 1, span := 1, slot := 0,
         summary := "Event A", color_id := none },
       { start_col := 2, end_col := 2, span := 1, slot := 0,
         summary := "Event B", color_id := none },
       { start_col := 3, end_col := 3, span := 1, slot := 0,
         summary := "Event C", color_id := none },
       { start_col := 4, end_col := 4, span := 1, slot := 0,
         summary := "Event D", color_id := none }] : List Segment).filter
      (fun s => decide (s.start_col ≤ 1) && decide (1 ≤ s.end_col))).length ≤ 3 :=
  c6_column_cover_le_max_slots (monthWeeks 2025 10) spreadDayEvents _ (by decide) 1

/-- C4: the month grid is an ordered sequence of week rows of exactly 7
consecutive dates each starting on a Sunday, the flattened rows are one
strictly consecutive run of dates (no gaps, no overlaps), and the grid
dates lying in the target month are exactly the calendar month's days
`toOrd y m 1 .. toOrd y m (daysInMonth y m)`. -/
theorem c4_month_grid_consecutive_covers (y m : Nat) (hy : 1 ≤ y)
    (hm1 : 1 ≤ m) (hm2 : m ≤ 12) :
    (∀ w ∈ monthWeeks y m, w.length = 7 ∧ weekday (w.headD 0) = 6) ∧
    (monthWeeks y m).flatten = List.range' (gridAnchor y m) (7 * numWeeks y m) ∧
    (∀ d, 1 ≤ d → d ≤ daysInMonth y m → toOrd y m d ∈ (monthWeeks y m).flatten) ∧
    (∀ o ∈ (monthWeeks y m).flatten,
      ((∃ d, 1 ≤ d ∧ d ≤ daysInMonth y m ∧ o = toOrd y m d) ↔
        firstOfMonthOrd y m ≤ o ∧ o ≤ lastOfMonthOrd y m)) := by
  obtain ⟨h1, h2, h3, h4, h5, h6, h7⟩ := grid_span y m
  have hf : 1 ≤ firstOfMonthOrd y m := firstOfMonthOrd_pos y m
  have hL : lastOfMonthOrd y m = firstOfMonthOrd y m + daysInMonth y m - 1 :=
    lastOfMonthOrd_eq y m
  have hfo : firstOfMonthOrd y m = toOrd y m 1 := rfl
  refine ⟨?_, monthWeeks_flatten y m, ?_, ?_⟩
  · intro w hw
    rcases List.mem_map.mp hw with ⟨wi, _, rfl⟩
    refine ⟨by simp, ?_⟩
    show weekday (gridAnchor y m + 7 * wi + 0) = 6
    unfold weekday at h6 ⊢
    omega
  · intro d hd1 hd2
    rw [monthWeeks_flatten, List.mem_range'_1]
    have htd := toOrd_day y m d
    omega
  · intro o ho
    rw [monthWeeks_flatten, List.mem_range'_1] at ho
    constructor
    · rintro ⟨d, hd1, hd2, rfl⟩
      have htd := toOrd_day y m d
      omega
    · rintro ⟨hlo, hhi⟩
      refine ⟨o - firstOfMonthOrd y m + 1, by omega, by omega, ?_⟩
      have htd := toOrd_day y m (o - firstOfMonthOrd y m + 1)
      omega

/-- C4 witness: the flattened October 2025 grid is the consecutive run of
35 ordinals starting at its anchor Sunday. -/
theorem c4_witness :
    (monthWeeks 2025 10).flatten =
      List.range' (gridAnchor 2025 10) (7 * numWeeks 2025 10) :=
  (c4_month_grid_consecutive_covers 2025 10 (by decide) (by decide) (by decide)).2.1

/-- C7 counterexample: February 2015 (a 28-day month starting on Sunday)
yields a grid of exactly 4 week rows, so a count of 4 does occur for a full
month. -/
theorem c7_counterexample : numWeeks 2015 2 = 4 := by decide

/-- C7 (amended): the number of week rows of the month grid is always 4, 5
or 6; a count of exactly 4 does occur (February of a common year starting
on Sunday, e.g. 2015). -/
theorem c7_num_weeks_between_4_and_6 (y m : Nat) (hy : 1 ≤ y)
    (hm1 : 1 ≤ m) (hm2 : m ≤ 12) :
    4 ≤ numWeeks y m ∧ numWeeks y m ≤ 6 := by
  obtain ⟨h1, h2, h3, h4, h5, h6, h7⟩ := grid_span y m
  have hf : 1 ≤ firstOfMonthOrd y m := firstOfMonthOrd_pos y m
  have hL : lastOfMonthOrd y m = firstOfMonthOrd y m + daysInMonth y m - 1 :=
    lastOfMonthOrd_eq y m
  have hd1 := daysInMonth_ge y m
  have hd2 := daysInMonth_le y m
  omega

/-- C7 witness: October 2025 has 5 week rows, within the 4..6 bounds. -/
theorem c7_witness : 4 ≤ numWeeks 2025 10 ∧ numWeeks 2025 10 ≤ 6 :=
  c7_num_weeks_between_4_and_6 2025 10 (by decide) (by decide) (by decide)

/-- C3: for a raw event parsing to dates `s` and `e`, normalization keeps the
event with inclusive end `e - 1` exactly when `e > s` and `e` otherwise
(stated for an event whose dates need no clipping, so the heuristic's result
is visible unchanged in the output). -/
theorem c3_exclusive_end_heuristic (ev : RawEvent) (y m s e : Nat)
    (hs : to_date ev.start = .ok s) (he : to_date ev.«end» = .ok e)
    (h1 : toOrd y m 1 ≤ s)
    (h2 : s ≤ last_of_month y m)
    (h3 : toOrd y m 1 ≤ (if s < e then e - 1 else e))
    (h4 : (if s < e then e - 1 else e) ≤ last_of_month y m) :
    prepare_events [ev] y m =
      [{ summary := ev.summary.getD "(No title)", start_date := s,
         end_date := if s < e then e - 1 else e, color_id := ev.color_id }] := by
  unfold prepare_events
  rw [List.foldl_cons, List.foldl_nil]
  unfold prepare_step
  rw [hs, he]
  simp only []
  have hmax : max s (toOrd y m 1) = s := Nat.max_eq_left h1
  have hmin : min (if s < e then e - 1 else e) (last_of_month y m) =
      (if s < e then e - 1 else e) := Nat.min_eq_left h4
  rw [hmax, hmin, if_pos ⟨h2, h3⟩]
  simp

/-- C3 witness: start October 5, exclusive end October 7 normalizes to the
inclusive range October 5 .. October 6 of 2025. -/
theorem c3_witness :
    prepare_events
      [{ summary := some "Trip", start := some (.dateObj (toOrd 2025 10 5)),
         «end» := some (.dateObj (toOrd 2025 10 7)), color_id := none }] 2025 10 =
      [{ summary := "Trip", start_date := toOrd 2025 10 5,
         end_date := toOrd 2025 10 6, color_id := none }] := by
  have h := c3_exclusive_end_heuristic
    { summary := some "Trip", start := some (.dateObj (toOrd 2025 10 5)),
      «end» := some (.dateObj (toOrd 2025 10 7)), color_id := none }
    2025 10 (toOrd 2025 10 5) (toOrd 2025 10 7) rfl rfl
    (by decide) (by decide) (by decide) (by decide)
  exact h.trans (by decide)

/-- C5 counterexample: a raw event whose end date precedes its start date,
both inside the month, survives the overlap filter and is emitted with
`start_date > end_date`, violating the claimed invariant. -/
theorem c5_counterexample :
    prepare_events
      [{ summary := some "X", start := some (.dateObj (toOrd 2025 10 20)),
         «end» := some (.dateObj (toOrd 2025 10 10)), color_id := none }] 2025 10 =
      [{ summary := "X", start_date := toOrd 2025 10 20,
         end_date := toOrd 2025 10 10, color_id := none }] ∧
    toOrd 2025 10 10 < toOrd 2025 10 20 := by
  constructor <;> decide

/-- C5 (amended): every prepared event has both dates within
`[firstOfMonth, lastOfMonth]`; the invariant `start_date ≤ end_date` holds
for every entry provided no raw event's parsed end precedes its parsed start
(it fails otherwise, as the counterexample shows). -/
theorem c5_prepared_event_bounds (events : List RawEvent) (y m : Nat) :
    (∀ p ∈ prepare_events events y m,
        toOrd y m 1 ≤ p.start_date ∧ p.start_date ≤ last_of_month y m ∧
        toOrd y m 1 ≤ p.end_date ∧ p.end_date ≤ last_of_month y m) ∧
    ((∀ ev ∈ events, ∀ s e, to_date ev.start = .ok s → to_date ev.«end» = .ok e → s ≤ e) →
      ∀ p ∈ prepare_events events y m, p.start_date ≤ p.end_date) := by
  constructor
  · intro p hp
    obtain ⟨ev, _, s, e, _, _, hsd, hed, hle, hge⟩ := prepare_events_mem events y m p hp
    refine ⟨?_, hle, hge, ?_⟩
    · rw [hsd]
      exact Nat.le_max_right _ _
    · rw [hed]
      exact Nat.min_le_right _ _
  · intro hmono p hp
    obtain ⟨ev, hev, s, e, hs, he, hsd, hed, hle, hge⟩ := prepare_events_mem events y m p hp
    have hse := hmono ev hev s e hs he
    have hei : s ≤ (if s < e then e - 1 else e) := by split <;> omega
    rw [hsd] at hle ⊢
    rw [hed] at hge ⊢
    have h1 : s ≤ last_of_month y m := le_trans (Nat.le_max_left _ _) hle
    have h2 : toOrd y m 1 ≤ (if s < e then e - 1 else e) :=
      le_trans hge (Nat.min_le_left _ _)
    have h3 : toOrd y m 1 ≤ last_of_month y m := le_trans hge (Nat.min_le_right _ _)
    exact Nat.max_le.mpr ⟨Nat.le_min.mpr ⟨hei, h1⟩, Nat.le_min.mpr ⟨h2, h3⟩⟩

/-- C5 witness: the inverted October event's two dates both still lie within
the month bounds. -/
theorem c5_witness :
    toOrd 2025 10 1 ≤ toOrd 2025 10 20 ∧ toOrd 2025 10 20 ≤ last_of_month 2025 10 ∧
    toOrd 2025 10 1 ≤ toOrd 2025 10 10 ∧ toOrd 2025 10 10 ≤ last_of_month 2025 10 :=
  (c5_prepared_event_bounds
      [{ summary := some "X", start := some (.dateObj (toOrd 2025 10 20)),
         «end» := some (.dateObj (toOrd 2025 10 10)), color_id := none }] 2025 10).1
    { summary := "X", start_date := toOrd 2025 10 20,
      end_date := toOrd 2025 10 10, color_id := none } (by decide)

/-- C8: an event whose start or end fails to parse is skipped, the other
events normalize exactly as if it were absent, and no error escapes
(normalization is a total function). -/
theorem c8_malformed_event_skipped (pre post : List RawEvent) (ev : RawEvent)
    (y m : Nat)
    (h : (∃ msg, to_date ev.start = .error msg) ∨
         ∃ msg, to_date ev.«end» = .error msg) :
    prepare_events (pre ++ ev :: post) y m = prepare_events (pre ++ post) y m := by
  unfold prepare_events
  rw [List.foldl_append, List.foldl_append, List.foldl_cons,
    prepare_step_error _ _ _ _ h]

/-- C8 witness: a malformed middle event drops out; its neighbours render
the same with or without it. -/
theorem c8_witness :
    prepare_events
      [{ summary := some "Good 1", start := some (.dateObj (toOrd 2025 10 3)),
         «end» := some (.dateObj (toOrd 2025 10 3)), color_id := none },
       { summary := some "Bad", start := some (.strBad "not-a-date"),
         «end» := some (.dateObj (toOrd 2025 10 4)), color_id := none },
       { summary := some "Good 2", start := some (.dateObj (toOrd 2025 10 8)),
         «end» := some (.dateObj (toOrd 2025 10 9)), color_id := none }] 2025 10 =
    prepare_events
      [{ summary := some "Good 1", start := some (.dateObj (toOrd 2025 10 3)),
         «end» := some (.dateObj (toOrd 2025 10 3)), color_id := none },
       { summary := some "Good 2", start := some (.dateObj (toOrd 2025 10 8)),
         «end» := some (.dateObj (toOrd 2025 10 9)), color_id := none }] 2025 10 :=
  c8_malformed_event_skipped
    [{ summary := some "Good 1", start := some (.dateObj (toOrd 2025 10 3)),
       «end» := some (.dateObj (toOrd 2025 10 3)), color_id := none }]
    [{ summary := some "Good 2", start := some (.dateObj (toOrd 2025 10 8)),
       «end» := some (.dateObj (toOrd 2025 10 9)), color_id := none }]
    { summary := some "Bad", start := some (.strBad "not-a-date"),
      «end» := some (.dateObj (toOrd 2025 10 4)), color_id := none }
    2025 10 (Or.inl ⟨"Unsupported date string format: " ++ "not-a-date", rfl⟩)

/-- C9: a title longer than the 20-character budget is displayed as its
first 17 characters followed by an ellipsis, total length 20; shorter
titles are displayed unchanged. -/
theorem c9_title_truncation (s : String) :
    (s.length > 20 → render_title s = s.take 17 ++ "..." ∧ (render_title s).length = 20) ∧
    (s.length ≤ 20 → render_title s = s) := by
  unfold render_title
  simp only []
  constructor
  · intro h
    rw [if_pos h]
    refine ⟨rfl, ?_⟩
    rw [String.length_append]
    have ht : (s.take 17).length = min 17 s.length := by
      rw [String.take_eq]
      show (s.1.take 17).length = min 17 s.length
      rw [List.length_take]
      rfl
    rw [ht]
    have h3 : ("..." : String).length = 3 := rfl
    rw [h3]
    omega
  · intro h
    rw [if_neg (by omega)]

/-- C9 witness: a 30-character title truncates to 17 characters plus the
ellipsis, length exactly 20. -/
theorem c9_witness :
    render_title "abcdefghijklmnopqrstuvwxyz0123" =
      "abcdefghijklmnopqrstuvwxyz0123".take 17 ++ "..." ∧
    (render_title "abcdefghijklmnopqrstuvwxyz0123").length = 20 :=
  (c9_title_truncation "abcdefghijklmnopqrstuvwxyz0123").1 (by decide)

/-- C10: a prepared event with `start_date > end_date` — reachable, since an
in-month raw event with end before start survives the filter — produces no
segment in any week row: the placement step leaves every week state
unchanged, and the whole layout equals the layout without the event. -/
theorem c10_inverted_event_produces_no_segments :
    (∀ (segs : List Segment) (week : List Nat) (ev : PreparedEvent),
        ev.end_date < ev.start_date → place_event_in_week segs week ev = segs) ∧
    (∀ (weeks : List (List Nat)) (pre post : List PreparedEvent) (ev : PreparedEvent),
        ev.end_date < ev.start_date →
        build_week_segments weeks (pre ++ ev :: post) =
          build_week_segments weeks (pre ++ post)) ∧
    prepare_events
      [{ summary := some "X", start := some (.dateObj (toOrd 2025 10 20)),
         «end» := some (.dateObj (toOrd 2025 10 10)), color_id := none }] 2025 10 =
      [{ summary := "X", start_date := toOrd 2025 10 20,
         end_date := toOrd 2025 10 10, color_id := none }] :=
  ⟨place_event_in_week_inverted, build_week_segments_skip_inverted, by decide⟩

/-- C10 witness: placing the inverted October event into a week leaves the
week state empty. -/
theorem c10_witness :
    place_event_in_week [] [toOrd 2025 10 5]
      { summary := "X", start_date := toOrd 2025 10 20,
        end_date := toOrd 2025 10 10, color_id := none } = [] :=
  c10_inverted_event_produces_no_segments.1 [] [toOrd 2025 10 5]
    { summary := "X", start_date := toOrd 2025 10 20,
      end_date := toOrd 2025 10 10, color_id := none } (by decide)

end CalImage
